import Mathlib

/-!
Verification of the ao3list scraper (src/ao3list.py) against its design
specification.  The Python program is shallowly embedded below: records are
the (name, count, url) tuples built by `Fetcher._parse_group`, the merge /
filter / sort pipeline of `Fetcher.fetch_all` is translated line by line,
the HTML handling of `_parse_group` is modelled over an explicit node tree,
and the CLI / output plumbing (`parse_args`, `output_table`, `main`) is
translated over explicit outcome values for the external effects (HTTP
fetches, file opening).
-/

namespace Ao3List

/-- A fandom record: the Python tuple `(name, count, url)` built at
src/ao3list.py:62.  Python tuple equality is componentwise, which
`DecidableEq` mirrors.  `count` is an `Int` because Python's `int()` can
produce negative values. -/
structure Record where
  name : String
  count : Int
  url : String
deriving DecidableEq, Repr

/-- `_base` constant (src/ao3list.py:12). -/
def base : String := "https://archiveofourown.org"

/-- `_group_path.format(group)` (src/ao3list.py:13, used at line 68). -/
def mediaPath (group : String) : String := "/media/" ++ group ++ "/fandoms"

/-- The URL built for one group at src/ao3list.py:68. -/
def groupUrl (group : String) : String := base ++ mediaPath group

/-- `_group_names` (src/ao3list.py:14-25), in source (insertion) order;
Python dicts preserve insertion order. -/
def groupNames : List (String × String) :=
  [("anime", "Anime%20*a*%20Manga"),
   ("books", "Books%20*a*%20Literature"),
   ("cartoons", "Cartoons%20*a*%20Comics%20*a*%20Graphic%20Novels"),
   ("celebrities", "Celebrities%20*a*%20Real People"),
   ("movies", "Movies"),
   ("music", "Music%20*a*%20Bands"),
   ("other", "Other%20Media"),
   ("theater", "Theater"),
   ("tv", "TV%20Shows"),
   ("videogames", "Video%20Games")]

/-- The merge loop body of `fetch_all` (src/ao3list.py:71-73): walk the
freshly fetched `fandoms` in order, appending each one to the accumulated
`items` only when no structurally equal record is already present. -/
def mergeInto : List Record → List Record → List Record
  | items, [] => items
  | items, f :: fs => mergeInto (if f ∈ items then items else items ++ [f]) fs

/-- The whole merge phase of `fetch_all` (src/ao3list.py:66-76), starting
from the empty accumulator and folding every fetched group list in order. -/
def mergeListsFrom : List Record → List (List Record) → List Record
  | items, [] => items
  | items, g :: gs => mergeListsFrom (mergeInto items g) gs

/-- Merge a list of fetched record lists as `fetch_all` does. -/
def mergeLists (gs : List (List Record)) : List Record := mergeListsFrom [] gs

/-- One step of a stable descending-by-count insertion sort: the new element
`x` is placed before the first element whose count is `≤ x.count`, so every
element that stays in front of `x` has a strictly larger count.  Python's
`sorted(..., key=lambda x: x[1], reverse=True)` (src/ao3list.py:80) is a
stable descending sort, and a stable sort's output is uniquely determined,
so this insertion sort computes the same list. -/
def insertDesc (x : Record) : List Record → List Record
  | [] => [x]
  | y :: ys => if x.count < y.count then y :: insertDesc x ys else x :: y :: ys

/-- Stable insertion sort, descending by `count`: earlier input elements are
inserted in front of later ones with an equal count. -/
def sortDesc : List Record → List Record
  | [] => []
  | x :: xs => insertDesc x (sortDesc xs)

/-- The filter-and-sort step of `fetch_all` (src/ao3list.py:80):
`sorted(filter(lambda x: x[1] >= mincount, items), key=lambda x: x[1],
reverse=True)`. -/
def pyFilterSort (items : List Record) (mincount : Int) : List Record :=
  sortDesc (items.filter (fun x => decide (mincount ≤ x.count)))

/-- The record list `fetch_all` returns (src/ao3list.py:65-84) once every
HTTP fetch has produced its parsed record list: merge all groups, then
filter and sort. -/
def fetchAllPure (gs : List (List Record)) (mincount : Int) : List Record :=
  pyFilterSort (mergeLists gs) mincount

theorem mem_insertDesc (x : Record) (l : List Record) (b : Record) :
    b ∈ insertDesc x l ↔ b = x ∨ b ∈ l := by
  induction l with
  | nil => simp [insertDesc]
  | cons y ys ih =>
    by_cases hxy : x.count < y.count
    · simp only [insertDesc, if_pos hxy, List.mem_cons, ih]
      tauto
    · simp only [insertDesc, if_neg hxy, List.mem_cons]

theorem pairwise_insertDesc (x : Record) (l : List Record)
    (h : l.Pairwise (fun a b => b.count ≤ a.count)) :
    (insertDesc x l).Pairwise (fun a b => b.count ≤ a.count) := by
  induction l with
  | nil => simp [insertDesc]
  | cons y ys ih =>
    rcases List.pairwise_cons.mp h with ⟨hy, hys⟩
    by_cases hxy : x.count < y.count
    · simp only [insertDesc, if_pos hxy]
      refine List.pairwise_cons.mpr ⟨?_, ih hys⟩
      intro b hb
      rcases (mem_insertDesc x ys b).mp hb with hb | hb
      · exact hb ▸ le_of_lt hxy
      · exact hy b hb
    · simp only [insertDesc, if_neg hxy]
      refine List.pairwise_cons.mpr ⟨?_, h⟩
      intro b hb
      rcases List.mem_cons.mp hb with hb | hb
      · exact hb ▸ le_of_not_lt hxy
      · exact le_trans (hy b hb) (le_of_not_lt hxy)

theorem perm_insertDesc (x : Record) (l : List Record) :
    (insertDesc x l).Perm (x :: l) := by
  induction l with
  | nil => simp [insertDesc]
  | cons y ys ih =>
    by_cases hxy : x.count < y.count
    · simp only [insertDesc, if_pos hxy]
      exact (ih.cons y).trans (List.Perm.swap x y ys)
    · simp [insertDesc, if_neg hxy]

theorem perm_sortDesc (l : List Record) : (sortDesc l).Perm l := by
  induction l with
  | nil => simp [sortDesc]
  | cons x xs ih =>
    exact (perm_insertDesc x (sortDesc xs)).trans (ih.cons x)

theorem pairwise_sortDesc (l : List Record) :
    (sortDesc l).Pairwise (fun a b => b.count ≤ a.count) := by
  induction l with
  | nil => simp [sortDesc]
  | cons x xs ih => exact pairwise_insertDesc x (sortDesc xs) ih

theorem filter_insertDesc (x : Record) (l : List Record) (c : Int) :
    (insertDesc x l).filter (fun r => decide (r.count = c)) =
      if x.count = c then x :: l.filter (fun r => decide (r.count = c))
      else l.filter (fun r => decide (r.count = c)) := by
  induction l with
  | nil =>
    by_cases hx : x.count = c <;> simp [insertDesc, List.filter_cons, hx]
  | cons y ys ih =>
    by_cases hxy : x.count < y.count
    · by_cases hx : x.count = c
      · have hy : ¬(y.count = c) := by omega
        simp only [insertDesc]
        rw [if_pos hxy]
        simp [List.filter_cons, hy, hx, ih]
      · simp only [insertDesc, if_pos hxy, List.filter_cons, ih, if_neg hx]
    · by_cases hx : x.count = c <;>
        · simp only [insertDesc]
          rw [if_neg hxy]
          simp [List.filter_cons, hx]

theorem filter_sortDesc (l : List Record) (c : Int) :
    (sortDesc l).filter (fun r => decide (r.count = c)) =
      l.filter (fun r => decide (r.count = c)) := by
  induction l with
  | nil => simp [sortDesc]
  | cons x xs ih =>
    by_cases hx : x.count = c <;>
      simp [sortDesc, filter_insertDesc, hx, List.filter_cons, ih]

/-- C1: for every list of records and every integer `minCount`, the
filter-and-sort step of `fetch_all` (src/ao3list.py:80) returns a list that
(i) is sorted in descending order of `count`, (ii) is a permutation of the
input restricted to the records with `count ≥ minCount`, and (iii) is
stable: for every count value, the records carrying that count appear in
the same relative order as in the filtered input. -/
theorem c1_filterAndSort_stable_desc (l : List Record) (m : Int) :
    (pyFilterSort l m).Pairwise (fun a b => b.count ≤ a.count) ∧
      (pyFilterSort l m).Perm (l.filter (fun r => decide (m ≤ r.count))) ∧
      ∀ c : Int,
        (pyFilterSort l m).filter (fun r => decide (r.count = c)) =
          (l.filter (fun r => decide (m ≤ r.count))).filter
            (fun r => decide (r.count = c)) := by
  refine ⟨pairwise_sortDesc _, perm_sortDesc _, ?_⟩
  intro c
  exact filter_sortDesc _ c

theorem mem_mergeInto (items fs : List Record) (a : Record) :
    a ∈ mergeInto items fs ↔ a ∈ items ∨ a ∈ fs := by
  induction fs generalizing items with
  | nil => simp [mergeInto]
  | cons f fs ih =>
    by_cases hf : f ∈ items
    · rw [mergeInto, if_pos hf, ih]
      simp only [List.mem_cons]
      constructor
      · tauto
      · rintro (h | rfl | h) <;> tauto
    · rw [mergeInto, if_neg hf, ih]
      simp only [List.mem_append, List.mem_singleton, List.mem_cons]
      tauto

theorem nodup_mergeInto (items fs : List Record) (h : items.Nodup) :
    (mergeInto items fs).Nodup := by
  induction fs generalizing items with
  | nil => exact h
  | cons f fs ih =>
    by_cases hf : f ∈ items
    · rw [mergeInto, if_pos hf]
      exact ih items h
    · rw [mergeInto, if_neg hf]
      refine ih _ ?_
      simp [List.nodup_append, h, hf]

theorem length_mergeInto_nodup (items fs : List Record) (h : fs.Nodup) :
    (mergeInto items fs).length =
      items.length + (fs.filter (fun f => decide (f ∉ items))).length := by
  induction fs generalizing items with
  | nil => simp [mergeInto]
  | cons f fs ih =>
    rcases List.nodup_cons.mp h with ⟨hfn, hfs⟩
    by_cases hf : f ∈ items
    · rw [mergeInto, if_pos hf, ih items hfs]
      simp [List.filter_cons, hf]
    · rw [mergeInto, if_neg hf, ih _ hfs]
      have hflt : fs.filter (fun x => decide (x ∉ items ++ [f])) =
          fs.filter (fun x => decide (x ∉ items)) := by
        refine List.filter_congr ?_
        intro x hx
        have hxf : x ≠ f := fun he => hfn (he ▸ hx)
        simp [List.mem_append, hxf]
      rw [hflt]
      simp [List.filter_cons, hf]
      omega

theorem mergeInto_disjoint (items fs : List Record) (h : fs.Nodup)
    (hd : ∀ f ∈ fs, f ∉ items) : mergeInto items fs = items ++ fs := by
  induction fs generalizing items with
  | nil => simp [mergeInto]
  | cons f fs ih =>
    rcases List.nodup_cons.mp h with ⟨hfn, hfs⟩
    rw [mergeInto, if_neg (hd f (List.mem_cons_self f fs))]
    rw [ih _ hfs]
    · simp
    · intro x hx
      simp only [List.mem_append, List.mem_singleton]
      rintro (hxi | rfl)
      · exact hd x (List.mem_cons_of_mem f hx) hxi
      · exact hfn hx

theorem mergeInto_nil_left (fs : List Record) (h : fs.Nodup) :
    mergeInto [] fs = fs := by
  simpa using mergeInto_disjoint [] fs h (by simp)

theorem nodup_mergeListsFrom (items : List Record) (gs : List (List Record))
    (h : items.Nodup) : (mergeListsFrom items gs).Nodup := by
  induction gs generalizing items with
  | nil => exact h
  | cons g gs ih => exact ih _ (nodup_mergeInto items g h)

theorem nodup_mergeLists (gs : List (List Record)) : (mergeLists gs).Nodup :=
  nodup_mergeListsFrom [] gs List.nodup_nil

theorem mergeLists_pair (A B : List Record) :
    mergeLists [A, B] = mergeInto (mergeInto [] A) B := rfl

/-- `|A ∩ B|` under full-triple equality: the number of distinct records
that occur in both `A` and `B`. -/
def interCard (A B : List Record) : Nat :=
  ((A.filter (fun a => decide (a ∈ B))).dedup).length

theorem length_filter_mem_add_not_mem (B A : List Record) :
    (B.filter (fun b => decide (b ∈ A))).length +
      (B.filter (fun b => decide (b ∉ A))).length = B.length := by
  induction B with
  | nil => simp
  | cons b bs ih =>
    simp only [List.filter_cons, decide_not] at ih ⊢
    by_cases hb : b ∈ A <;> simp [hb] <;> omega

theorem interCard_eq_filter_right (A B : List Record)
    (hA : A.Nodup) (hB : B.Nodup) :
    interCard A B = (B.filter (fun b => decide (b ∈ A))).length := by
  unfold interCard
  rw [List.Nodup.dedup (hA.filter _)]
  refine List.Perm.length_eq ?_
  rw [List.perm_ext_iff_of_nodup (hA.filter _) (hB.filter _)]
  intro x
  simp only [List.mem_filter, decide_eq_true_eq]
  tauto

/-- C2 counterexample: the merge step of `fetch_all` deduplicates inside a
single fetched list as well, so when a list contains an internal duplicate
the claimed formula `len(A) + len(B) - |A ∩ B|` fails.  With
`A = [r, r]` and `B = [r]` the merged result is `[r]` (length 1) while the
formula gives `2 + 1 - 1 = 2`. -/
theorem c2_counterexample :
    (mergeLists [[Record.mk "X" 1 "u", Record.mk "X" 1 "u"],
        [Record.mk "X" 1 "u"]]).length ≠
      [Record.mk "X" 1 "u", Record.mk "X" 1 "u"].length +
        [Record.mk "X" 1 "u"].length -
        interCard [Record.mk "X" 1 "u", Record.mk "X" 1 "u"]
          [Record.mk "X" 1 "u"] := by
  decide

/-- C2 (amended): for duplicate-free record lists `A` and `B`, merging them
as `fetch_all` does (src/ao3list.py:71-73) yields a list of length
`len(A) + len(B) - |A ∩ B|`, the intersection taken under full-triple
equality. -/
theorem c2_merge_length (A B : List Record) (hA : A.Nodup) (hB : B.Nodup) :
    (mergeLists [A, B]).length = A.length + B.length - interCard A B := by
  rw [mergeLists_pair, mergeInto_nil_left A hA,
    length_mergeInto_nodup A B hB, interCard_eq_filter_right A B hA hB]
  have hpart := length_filter_mem_add_not_mem B A
  omega

/-- C2 witness: the amended formula evaluated on the concrete duplicate-free
lists `A = [x, y]`, `B = [y, z]`, where the overlap is exactly `{y}`. -/
theorem c2_merge_length_witness :
    (mergeLists [[Record.mk "X" 10 "u1", Record.mk "Y" 5 "u2"],
        [Record.mk "Y" 5 "u2", Record.mk "Z" 1 "u3"]]).length =
      [Record.mk "X" 10 "u1", Record.mk "Y" 5 "u2"].length +
        [Record.mk "Y" 5 "u2", Record.mk "Z" 1 "u3"].length -
        interCard [Record.mk "X" 10 "u1", Record.mk "Y" 5 "u2"]
          [Record.mk "Y" 5 "u2", Record.mk "Z" 1 "u3"] :=
  c2_merge_length [Record.mk "X" 10 "u1", Record.mk "Y" 5 "u2"]
    [Record.mk "Y" 5 "u2", Record.mk "Z" 1 "u3"] (by decide) (by decide)

theorem mem_pyFilterSort (l : List Record) (m : Int) (r : Record) :
    r ∈ pyFilterSort l m ↔ r ∈ l ∧ m ≤ r.count := by
  unfold pyFilterSort
  rw [(perm_sortDesc _).mem_iff, List.mem_filter]
  simp

theorem nodup_pyFilterSort (l : List Record) (m : Int) (h : l.Nodup) :
    (pyFilterSort l m).Nodup :=
  ((perm_sortDesc _).nodup_iff).mpr (h.filter _)

/-- C3: every record list returned by `fetch_all` (src/ao3list.py:65-84) is
free of records equal on the whole triple (name, count, url); membership in
the result is exactly membership in the merged input with `count ≥
minCount`; and two merged records which agree on name and url but differ in
count are both kept as distinct entries whenever they pass the filter. -/
theorem c3_no_duplicate_triples (gs : List (List Record)) (m : Int) :
    (fetchAllPure gs m).Nodup ∧
      (∀ r : Record, r ∈ fetchAllPure gs m ↔ r ∈ mergeLists gs ∧ m ≤ r.count) ∧
      ∀ r1 r2 : Record, r1 ∈ mergeLists gs → r2 ∈ mergeLists gs →
        r1.name = r2.name → r1.url = r2.url → r1.count ≠ r2.count →
        m ≤ r1.count → m ≤ r2.count →
        r1 ∈ fetchAllPure gs m ∧ r2 ∈ fetchAllPure gs m ∧ r1 ≠ r2 := by
  refine ⟨nodup_pyFilterSort _ m (nodup_mergeLists gs), ?_, ?_⟩
  · intro r
    exact mem_pyFilterSort (mergeLists gs) m r
  · intro r1 r2 h1 h2 _ _ hc hm1 hm2
    refine ⟨(mem_pyFilterSort _ m r1).mpr ⟨h1, hm1⟩,
      (mem_pyFilterSort _ m r2).mpr ⟨h2, hm2⟩, ?_⟩
    intro he
    exact hc (congrArg Record.count he)

/-- C3 witness: one fetched group holding the same fandom name and url with
two different counts; both survive `fetch_all` as distinct entries. -/
theorem c3_no_duplicate_triples_witness :
    Record.mk "A" 1 "u" ∈ fetchAllPure [[Record.mk "A" 1 "u", Record.mk "A" 2 "u"]] 0 ∧
      Record.mk "A" 2 "u" ∈ fetchAllPure [[Record.mk "A" 1 "u", Record.mk "A" 2 "u"]] 0 ∧
      Record.mk "A" 1 "u" ≠ Record.mk "A" 2 "u" :=
  (c3_no_duplicate_triples [[Record.mk "A" 1 "u", Record.mk "A" 2 "u"]] 0).2.2
    (Record.mk "A" 1 "u") (Record.mk "A" 2 "u") (by decide) (by decide)
    rfl rfl (by decide) (by decide) (by decide)

mutual
/-- A node of the parsed HTML tree handed to `_parse_group`
(src/ao3list.py:50): either a tagged element (with tag name, attributes and
children, as a `bs4.element.Tag`) or a bare text node (a
`bs4.NavigableString`). -/
inductive HNode where
  | tag : String → List (String × String) → HNodes → HNode
  | text : String → HNode
/-- A sequence of sibling nodes. -/
inductive HNodes where
  | nil : HNodes
  | cons : HNode → HNodes → HNodes
end

mutual
/-- `node.text` in bs4: the concatenation of all descendant strings, in
document order (used at src/ao3list.py:59). -/
def textOfN : HNode → String
  | .text s => s
  | .tag _ _ ch => textOfL ch
def textOfL : HNodes → String
  | .nil => ""
  | .cons c cs => textOfN c ++ textOfL cs
end

mutual
/-- `node.find(name)` in bs4 (src/ao3list.py:58): first descendant tag with
the given name, preorder depth-first, or `none`. -/
def findTagN (nm : String) : HNode → Option HNode
  | .text _ => none
  | .tag n a ch => if n = nm then some (.tag n a ch) else findTagL nm ch
def findTagL (nm : String) : HNodes → Option HNode
  | .nil => none
  | .cons c cs =>
    match findTagN nm c with
    | some r => some r
    | none => findTagL nm cs
end

/-- The Python exceptions that can escape the parsing expression at
src/ao3list.py:58-62.  Note the program defines no ParseError class. -/
inductive PyErr where
  | indexError : PyErr
  | valueError : String → PyErr
  | attributeError : PyErr
  | keyError : String → PyErr
deriving DecidableEq, Repr

/-- Python's default `str.split` whitespace set, restricted to ASCII (the
scraped pages are ASCII in the relevant places). -/
def pyIsSpace (c : Char) : Bool :=
  c == ' ' || c == '\t' || c == '\n' || c == '\r' || c == '\x0b' || c == '\x0c'

/-- Python `str.strip()`: remove leading and trailing whitespace
(src/ao3list.py:59, 62). -/
def pyStrip (l : List Char) : List Char :=
  ((l.dropWhile pyIsSpace).reverse.dropWhile pyIsSpace).reverse

/-- Python `text.rsplit(maxsplit=1)` with the default (whitespace)
separator (src/ao3list.py:60): split off the last whitespace-separated
token; an empty or all-whitespace string yields `[]`, a string with no
internal separator yields one element. -/
def pyRsplit1 (l : List Char) : List (List Char) :=
  let r := (l.reverse).dropWhile pyIsSpace
  if r.isEmpty then []
  else
    let tok := r.takeWhile (fun c => !pyIsSpace c)
    let rest := (r.dropWhile (fun c => !pyIsSpace c)).dropWhile pyIsSpace
    if rest.isEmpty then [tok.reverse] else [rest.reverse, tok.reverse]

/-- Digit sequence accepted by Python `int()`: decimal digits with single
underscores allowed between digits. -/
def pyDigitsAux : List Char → Nat → Option Nat
  | [], acc => some acc
  | '_' :: c :: rest, acc =>
    if c.isDigit then pyDigitsAux rest (acc * 10 + (c.toNat - 48)) else none
  | ['_'], _ => none
  | c :: rest, acc =>
    if c.isDigit then pyDigitsAux rest (acc * 10 + (c.toNat - 48)) else none

def pyDigits : List Char → Option Nat
  | [] => none
  | c :: rest =>
    if c.isDigit then pyDigitsAux rest (c.toNat - 48) else none

/-- Python `int(s)` on a string (src/ao3list.py:62): strip whitespace, an
optional sign, then decimal digits; anything else raises ValueError
(`none` here).  Non-ASCII digits are out of scope. -/
def pyInt (l : List Char) : Option Int :=
  match pyStrip l with
  | '+' :: rest => (pyDigits rest).map Int.ofNat
  | '-' :: rest => (pyDigits rest).map (fun n => -(n : Int))
  | s => (pyDigits s).map Int.ofNat

/-- The body of the loop in `_parse_group` (src/ao3list.py:58-62) for one
list item, with each Python exception modelled explicitly:
`child.find('a')` returning None makes `.attrs` raise AttributeError, a
missing `href` key raises KeyError, a missing `parts[1]` raises
IndexError, and a malformed count raises ValueError. -/
def parseItem (b : String) (child : HNode) : Except PyErr Record :=
  match child with
  | .text _ => .error .attributeError
  | .tag _ _ ch =>
    match findTagL "a" ch with
    | none => .error .attributeError
    | some (.text _) => .error .attributeError
    | some (.tag _ attrs _) =>
      match attrs.lookup "href" with
      | none => .error (.keyError "href")
      | some href =>
        let path := b ++ href
        let text := pyStrip (textOfN child).toList
        match pyRsplit1 text with
        | [p0, p1] =>
          let countStr := ((pyStrip p1).drop 1).dropLast
          match pyInt countStr with
          | none => .error (.valueError (String.mk countStr))
          | some n => .ok ⟨String.mk (pyStrip p0), n, path⟩
        | _ => .error .indexError

/-- The loop of `_parse_group` over the group container's direct children
(src/ao3list.py:52-62): any child that is not a tag named `li` is skipped;
an exception from any item aborts the whole parse. -/
def parseGroupGo (b : String) : HNodes → Except PyErr (List Record)
  | .nil => .ok []
  | .cons c cs =>
    match c with
    | .text _ => parseGroupGo b cs
    | .tag nm a ch =>
      if nm = "li" then
        match parseItem b (.tag nm a ch) with
        | .error e => .error e
        | .ok r =>
          match parseGroupGo b cs with
          | .error e => .error e
          | .ok rs => .ok (r :: rs)
      else parseGroupGo b cs

/-- `Fetcher._parse_group` (src/ao3list.py:50-63). -/
def parseGroup (b : String) : HNode → Except PyErr (List Record)
  | .text _ => .ok []
  | .tag _ _ ch => parseGroupGo b ch

/-- The concrete group container of the parser scenario: one list item
whose first link has href `/media/Anime/Foo` and whose visible text is
`Foo Fandom (42)`. -/
def c4Group : HNode :=
  .tag "ul" []
    (.cons
      (.tag "li" []
        (.cons (.tag "a" [("href", "/media/Anime/Foo")]
            (.cons (.text "Foo Fandom") .nil))
          (.cons (.text " (42)") .nil)))
      .nil)

/-- C4: the parser scenario.  A group container holding one list item whose
first link's href is `/media/Anime/Foo` and whose trimmed visible text is
`Foo Fandom (42)` parses to exactly one record: name `Foo Fandom`, count
42, url `https://archiveofourown.org/media/Anime/Foo`
(src/ao3list.py:50-63). -/
theorem c4_parse_scenario :
    parseGroup base c4Group =
      .ok [Record.mk "Foo Fandom" 42 "https://archiveofourown.org/media/Anime/Foo"] := by
  rfl

/-- A list item whose text has no whitespace-separated count token at all. -/
def c5GroupNoCount : HNode :=
  .tag "ul" []
    (.cons
      (.tag "li" []
        (.cons (.tag "a" [("href", "/media/X")]
            (.cons (.text "NoCount") .nil)) .nil))
      .nil)

/-- A list item whose trailing token is parenthesized but not a number. -/
def c5GroupBadCount : HNode :=
  .tag "ul" []
    (.cons
      (.tag "li" []
        (.cons (.tag "a" [("href", "/media/X")]
            (.cons (.text "Foo") .nil))
          (.cons (.text " (x)") .nil)))
      .nil)

/-- C5: on a list item without a well-formed parenthesized count token the
code does NOT raise a ParseError carrying the item's source text — no
ParseError class exists anywhere in src/ao3list.py.  Instead the parse at
src/ao3list.py:60-62 escapes with a bare IndexError (text with no
whitespace at all: `parts[1]` is missing) or a bare ValueError (trailing
token `(x)`: `int("x")` fails), neither of which mentions the offending
item. -/
theorem c5_malformed_count_raises_bare_exception :
    parseGroup base c5GroupNoCount = .error .indexError ∧
      parseGroup base c5GroupBadCount = .error (.valueError "x") := by
  exact ⟨rfl, rfl⟩

/-- `Fetcher.vprint` (src/ao3list.py:34-36), as the list of lines it
prints: the message when `verbosity >= lvl`, nothing otherwise. -/
def vprintLog (verbosity lvl : Nat) (msg : String) : List String :=
  if lvl ≤ verbosity then [msg] else []

/-- One fetch outcome for a category: either the transport/status error
raised by `requests.get` / `raise_for_status` (src/ao3list.py:40-41) or the
record list parsed from the page. -/
abbrev FetchOutcome := Except String (List Record)

/-- The loop of `fetch_all` (src/ao3list.py:65-84) with `_fetch_fandoms`
inlined, threading the accumulated merged items and the log lines printed
so far.  Each group's fetch is driven by its outcome in `fetches`; an
error aborts the run at that point (the Python exception propagates out of
`fetch_all`).  On normal completion the items are filtered and sorted
(line 80) and the filter diagnostic (lines 82-83) is logged. -/
def fetchAllGo (v : Nat) (m : Int) :
    List (String × FetchOutcome) → List Record → List String →
      Except String (List Record) × List String
  | [], items, logs =>
    let results := pyFilterSort items m
    (.ok results,
      logs ++ (if items.length ≠ results.length then
        vprintLog v 2 ("Filtered " ++ toString (items.length - results.length) ++
          " fandoms out for having too few works") else []))
  | (g, outcome) :: rest, items, logs =>
    let url := groupUrl g
    let logs := logs ++ vprintLog v 1 ("Fetching fandoms from " ++ url)
    match outcome with
    | .error e => (.error e, logs)
    | .ok fandoms =>
      let logs := logs ++ vprintLog v 2 ("Fetched " ++ toString fandoms.length ++
        " fandoms from " ++ url)
      let merged := mergeInto items fandoms
      let logs := logs ++ (if items.length + fandoms.length ≠ merged.length then
        vprintLog v 2 ("Merging lists resulted in dropping " ++
          toString (items.length + fandoms.length - merged.length) ++
          " duplicates") else [])
      fetchAllGo v m rest merged logs

/-- `Fetcher.fetch_all` (src/ao3list.py:65-84) at verbosity `v`: the value
it returns (or the exception it raises) together with everything it
printed. -/
def fetchAllV (v : Nat) (fetches : List (String × FetchOutcome)) (m : Int) :
    Except String (List Record) × List String :=
  fetchAllGo v m fetches [] []

theorem fetchAllGo_fst_verbosity (m : Int)
    (rest : List (String × FetchOutcome)) :
    ∀ (v v' : Nat) (items : List Record) (logs logs' : List String),
      (fetchAllGo v m rest items logs).1 = (fetchAllGo v' m rest items logs').1 := by
  induction rest with
  | nil => intro v v' items logs logs'; rfl
  | cons p rest ih =>
    intro v v' items logs logs'
    obtain ⟨g, outcome⟩ := p
    cases outcome with
    | error e => rfl
    | ok fandoms => exact ih v v' _ _ _

theorem fetchAllGo_quiet_logs (m : Int)
    (rest : List (String × FetchOutcome)) :
    ∀ (items : List Record) (logs : List String),
      (fetchAllGo 0 m rest items logs).2 = logs := by
  induction rest with
  | nil =>
    intro items logs
    simp [fetchAllGo, vprintLog]
  | cons p rest ih =>
    intro items logs
    obtain ⟨g, outcome⟩ := p
    cases outcome with
    | error e => simp [fetchAllGo, vprintLog]
    | ok fandoms =>
      simp only [fetchAllGo, vprintLog]
      rw [ih]
      simp

/-- C8: the record list (or exception) produced by `fetch_all` is the same
at every verbosity setting — logging (src/ao3list.py:34-36, 39, 47, 76, 83)
is a side effect only — and verbosity 0 produces no log output at all. -/
theorem c8_verbosity_noninterference (fetches : List (String × FetchOutcome))
    (m : Int) :
    (∀ v v' : Nat, (fetchAllV v fetches m).1 = (fetchAllV v' fetches m).1) ∧
      (fetchAllV 0 fetches m).2 = [] := by
  constructor
  · intro v v'
    exact fetchAllGo_fst_verbosity m fetches v v' [] [] []
  · exact fetchAllGo_quiet_logs m fetches [] []

/-- The outcome of one run of `main` (src/ao3list.py:173-202): the exit
code and what got written to the output sink (the chosen results
destination).  Error diagnostics go to stdout separately and are not
result output. -/
structure MainResult where
  exitCode : Nat
  sinkWrites : List String
deriving DecidableEq, Repr

/-- `main` (src/ao3list.py:173-202) over explicit outcomes for its two
external effects: the per-category fetches and the opening of the output
destination.  Mirroring the source's control flow: `fetch_all` runs first
and any exception there prints a message and returns 1 before any output
destination is touched (lines 184-188); then the output file is opened,
a failure again returning 1 with nothing written (lines 191-196); only
then is the formatter applied to the complete record list (line 198). -/
def runMain (v : Nat) (fetches : List (String × FetchOutcome)) (m : Int)
    (openOutcome : Except String Unit) (render : List Record → String) :
    MainResult :=
  match (fetchAllV v fetches m).1 with
  | .error _ => ⟨1, []⟩
  | .ok fandoms =>
    match openOutcome with
    | .error _ => ⟨1, []⟩
    | .ok _ => ⟨0, [render fandoms]⟩

theorem fetchAllGo_error_of_mem (m : Int)
    (rest : List (String × FetchOutcome)) :
    ∀ (v : Nat) (items : List Record) (logs : List String),
      (∃ p ∈ rest, ∃ e, p.2 = .error e) →
        ∃ e, (fetchAllGo v m rest items logs).1 = .error e := by
  induction rest with
  | nil =>
    intro v items logs h
    rcases h with ⟨p, hp, _⟩
    exact absurd hp (List.not_mem_nil p)
  | cons q rest ih =>
    intro v items logs h
    obtain ⟨g, outcome⟩ := q
    cases outcome with
    | error e => exact ⟨e, rfl⟩
    | ok fandoms =>
      rcases h with ⟨p, hp, e, he⟩
      rcases List.mem_cons.mp hp with rfl | hp
      · exact absurd he (by simp)
      · exact ih v _ _ ⟨p, hp, e, he⟩

/-- C6: if any category fetch fails, `main` returns exit code 1 and writes
nothing to the output sink; if the output destination cannot be opened,
`main` likewise returns 1 with nothing written; and when the fetches
succeed and the destination opens, `main` returns 0 having written exactly
the rendering of the full record list — the sink is only written after the
whole list is produced, so a failed run emits no partial results
(src/ao3list.py:173-202). -/
theorem c6_exit_codes_and_atomic_output (v : Nat)
    (fetches : List (String × FetchOutcome)) (m : Int)
    (openOutcome : Except String Unit) (render : List Record → String) :
    ((∃ p ∈ fetches, ∃ e, p.2 = .error e) →
        runMain v fetches m openOutcome render = ⟨1, []⟩) ∧
      ((∃ e, openOutcome = .error e) →
        runMain v fetches m openOutcome render = ⟨1, []⟩) ∧
      (∀ fs : List Record, (fetchAllV v fetches m).1 = .ok fs →
        openOutcome = .ok () →
        runMain v fetches m openOutcome render = ⟨0, [render fs]⟩) := by
  refine ⟨?_, ?_, ?_⟩
  · intro h
    rcases fetchAllGo_error_of_mem m fetches v [] [] h with ⟨e, he⟩
    unfold runMain
    rw [show (fetchAllV v fetches m).1 = .error e from he]
  · rintro ⟨e, rfl⟩
    unfold runMain
    cases (fetchAllV v fetches m).1 <;> rfl
  · intro fs hfs hopen
    unfold runMain
    rw [hfs, hopen]

/-- C6 witness: a failing fetch, a failing open, and a clean run, each on
concrete inputs. -/
theorem c6_exit_codes_witness :
    runMain 1 [("Movies", Except.error "HTTP 500")] 0 (.ok ())
        (fun _ => "out") = ⟨1, []⟩ ∧
      runMain 1 [("Movies", Except.ok [])] 0 (.error "permission denied")
        (fun _ => "out") = ⟨1, []⟩ ∧
      runMain 1 [("Movies", Except.ok [])] 0 (.ok ())
        (fun _ => "out") = ⟨0, ["out"]⟩ :=
  ⟨(c6_exit_codes_and_atomic_output 1 [("Movies", Except.error "HTTP 500")] 0
      (.ok ()) (fun _ => "out")).1
      ⟨("Movies", Except.error "HTTP 500"), by simp, "HTTP 500", rfl⟩,
    (c6_exit_codes_and_atomic_output 1 [("Movies", Except.ok [])] 0
      (.error "permission denied") (fun _ => "out")).2.1
      ⟨"permission denied", rfl⟩,
    (c6_exit_codes_and_atomic_output 1 [("Movies", Except.ok [])] 0
      (.ok ()) (fun _ => "out")).2.2 [] rfl rfl⟩

/-- Token test for the verbose flag (src/ao3list.py:149-153). -/
def isVerboseFlag (a : String) : Bool := a == "-v" || a == "--verbose"

/-- Token test for the quiet flag (src/ao3list.py:154-158). -/
def isQuietFlag (a : String) : Bool := a == "-q" || a == "--quiet"

/-- The effective `verbosity` destination produced by `parse_args`
(src/ao3list.py:149-158): both flags are argparse `store_const` actions on
the same `dest='verbosity'` (default 1), and argparse processes the command
line left to right, each occurrence overwriting the destination — so the
verbosity-flag occurrence appearing last wins. -/
def effVerbosity (args : List String) : Nat :=
  args.foldl
    (fun v a => if isVerboseFlag a then 2 else if isQuietFlag a then 0 else v) 1

/-- C7 counterexample: on the command line `-q -v` the later `-v` overwrites
the `verbosity` destination, so the effective verbosity is 2, not 0 — the
quiet flag does not override the verbose flag regardless of order. -/
theorem c7_counterexample : effVerbosity ["-q", "-v"] ≠ 0 := by decide

theorem foldl_verbosity_const (post : List String) :
    ∀ v : Nat, (∀ a ∈ post, isVerboseFlag a = false ∧ isQuietFlag a = false) →
      post.foldl
        (fun v a => if isVerboseFlag a then 2 else if isQuietFlag a then 0 else v)
        v = v := by
  induction post with
  | nil => intro v _; rfl
  | cons a as ih =>
    intro v h
    have ha := h a (List.mem_cons_self a as)
    simp only [List.foldl_cons, ha.1, ha.2, Bool.false_eq_true, if_false]
    exact ih v (fun b hb => h b (List.mem_cons_of_mem a hb))

/-- C7 (amended): of the quiet and verbose flags, the occurrence appearing
last on the command line determines the verbosity — quiet last yields 0 and
verbose last yields 2 (in particular verbose alone yields 2 and quiet alone
yields 0); quiet does NOT override a verbose flag that follows it
(src/ao3list.py:149-158). -/
theorem c7_amended_last_flag_wins (pre post : List String)
    (h : ∀ a ∈ post, isVerboseFlag a = false ∧ isQuietFlag a = false) :
    effVerbosity (pre ++ "-q" :: post) = 0 ∧
      effVerbosity (pre ++ "-v" :: post) = 2 := by
  constructor
  · unfold effVerbosity
    rw [List.foldl_append, List.foldl_cons]
    exact foldl_verbosity_const post _ h
  · unfold effVerbosity
    rw [List.foldl_append, List.foldl_cons]
    exact foldl_verbosity_const post _ h

/-- C7 witness: `-v -q` gives verbosity 0 and `-v -v` gives verbosity 2. -/
theorem c7_amended_witness :
    effVerbosity (["-v"] ++ "-q" :: ["--min-works"]) = 0 ∧
      effVerbosity (["-v"] ++ "-v" :: ["--min-works"]) = 2 :=
  c7_amended_last_flag_wins ["-v"] ["--min-works"]
    (fun a ha => by
      rcases List.mem_singleton.mp ha with rfl
      exact ⟨rfl, rfl⟩)

/-- The loop body of `output_table` computing column widths
(src/ao3list.py:99-102): widen each column to the rendered width of the
record's field (`len(str(...))`; the count is an int, the other two are
already strings). -/
def tableStep (s : Nat × Nat × Nat) (f : Record) : Nat × Nat × Nat :=
  (max s.1 (toString f.count).length,
    max s.2.1 f.name.length,
    max s.2.2 f.url.length)

/-- The column widths of `output_table` (src/ao3list.py:96-102): start from
the header widths `("count", "name", "URL")` and widen over every record.
These widths drive the `ljust` padding and the separator rule row
(lines 104-113). -/
def tableSizes (fandoms : List Record) : Nat × Nat × Nat :=
  fandoms.foldl tableStep ("count".length, "name".length, "URL".length)

theorem foldl_tableStep_init_le (fs : List Record) :
    ∀ s : Nat × Nat × Nat,
      s.1 ≤ (fs.foldl tableStep s).1 ∧
        s.2.1 ≤ (fs.foldl tableStep s).2.1 ∧
        s.2.2 ≤ (fs.foldl tableStep s).2.2 := by
  induction fs with
  | nil => intro s; exact ⟨le_refl _, le_refl _, le_refl _⟩
  | cons f fs ih =>
    intro s
    have h := ih (tableStep s f)
    exact ⟨le_trans (le_max_left _ _) h.1,
      le_trans (le_max_left _ _) h.2.1,
      le_trans (le_max_left _ _) h.2.2⟩

theorem foldl_tableStep_mem_le (fs : List Record) :
    ∀ (s : Nat × Nat × Nat) (f : Record), f ∈ fs →
      (toString f.count).length ≤ (fs.foldl tableStep s).1 ∧
        f.name.length ≤ (fs.foldl tableStep s).2.1 ∧
        f.url.length ≤ (fs.foldl tableStep s).2.2 := by
  induction fs with
  | nil => intro s f h; exact absurd h (List.not_mem_nil f)
  | cons g fs ih =>
    intro s f h
    rcases List.mem_cons.mp h with rfl | h
    · have h2 := foldl_tableStep_init_le fs (tableStep s f)
      exact ⟨le_trans (le_max_right _ _) h2.1,
        le_trans (le_max_right _ _) h2.2.1,
        le_trans (le_max_right _ _) h2.2.2⟩
    · exact ih (tableStep s g) f h

/-- C9: in `output_table` every column width is at least its header's width
and at least the width of the widest cell of the column, the widths being
the maximum over the header and all values (src/ao3list.py:96-102); on the
example records `("Foo", 5, "http://x/1")`, `("Barbaz", 120, "http://x/2")`
the count column is at least 3 wide. -/
theorem c9_table_column_widths (fs : List Record) :
    ("count".length ≤ (tableSizes fs).1 ∧
        "name".length ≤ (tableSizes fs).2.1 ∧
        "URL".length ≤ (tableSizes fs).2.2) ∧
      (∀ f ∈ fs,
        (toString f.count).length ≤ (tableSizes fs).1 ∧
          f.name.length ≤ (tableSizes fs).2.1 ∧
          f.url.length ≤ (tableSizes fs).2.2) ∧
      3 ≤ (tableSizes [Record.mk "Foo" 5 "http://x/1",
        Record.mk "Barbaz" 120 "http://x/2"]).1 := by
  unfold tableSizes
  refine ⟨foldl_tableStep_init_le fs
    ("count".length, "name".length, "URL".length), ?_, ?_⟩
  · intro f hf
    exact foldl_tableStep_mem_le fs _ f hf
  · decide

/-- C9 witness: the width bound applied to a concrete record of the example
list. -/
theorem c9_table_column_widths_witness :
    (toString (120 : Int)).length ≤
      (tableSizes [Record.mk "Foo" 5 "http://x/1",
        Record.mk "Barbaz" 120 "http://x/2"]).1 :=
  ((c9_table_column_widths [Record.mk "Foo" 5 "http://x/1",
      Record.mk "Barbaz" 120 "http://x/2"]).2.1
    (Record.mk "Barbaz" 120 "http://x/2") (by decide)).1

/-- The category defaulting of `main` (src/ao3list.py:178-181):
`flags.category` is `None` when no category flag was passed (the argparse
`append` action's default), in which case all of `_group_names`' keys are
scraped. -/
def selectedCategories : Option (List String) → List String
  | none => groupNames.map Prod.fst
  | some cs => cs

/-- C10: with no category selector on the command line, `main` fetches all
ten known categories — the default for an absent category flag is the
complete category set (src/ao3list.py:14-25, 178-182). -/
theorem c10_default_is_all_categories :
    selectedCategories none =
      ["anime", "books", "cartoons", "celebrities", "movies", "music",
        "other", "theater", "tv", "videogames"] ∧
      (selectedCategories none).length = 10 := ⟨rfl, rfl⟩

end Ao3List
